import Mathlib

/-!
Shallow embedding of `src/main.py` of the midi-generator repository.

Conventions of the embedding:
* Python ints are `ℤ` (or `ℕ` for loop counters that Python produces via
  `range`), Python floats holding beat durations are exact rationals `ℚ`.
* Python dicts `{'note': .., 'duration': .., 'velocity': .., 'start_time': ..}`
  become structures; the optional `start_time` key is an `Option ℚ`.
* Functions that `raise ValueError` return `Except String _`.
* The global `random` source is abstracted: `random.random()` becomes a stream
  `g : ℕ → ℚ` of draws consumed in order (a counter is threaded through),
  `random.choice(xs)` becomes an externally supplied index stream reduced
  modulo the list length (uniform choice over the list).
* List indexing `xs[i]` with an index the code keeps in range becomes
  `List.getD xs i d`; every theorem below only ever inspects it at in-range
  indices, where `getD` agrees with Python indexing.
-/

/-- A timed pitched event (`{'note', 'duration', 'velocity'}` dict, with the
`start_time` key optional as in the source). -/
structure NoteEvent where
  note : ℤ
  duration : ℚ
  velocity : ℤ
  start_time : Option ℚ := none
  deriving DecidableEq

instance : Inhabited NoteEvent := ⟨⟨0, 0, 0, none⟩⟩

/-- A chord event (`{'notes', 'duration', 'velocity'}` dict, `start_time`
optional). -/
structure Chord where
  notes : List ℤ
  duration : ℚ
  velocity : ℤ
  start_time : Option ℚ := none
  deriving DecidableEq

instance : Inhabited Chord := ⟨⟨[], 0, 0, none⟩⟩

/-- A percussion event (`{'note', 'time', 'duration'}` dict). -/
structure DrumEvent where
  note : ℤ
  time : ℚ
  duration : ℚ
  deriving DecidableEq

deriving instance DecidableEq for Except

/-- `note_name_to_number` table from the source (comment there: C4 = MIDI 60). -/
def note_name_to_number : List (String × ℤ) :=
  [("C", 0), ("C#", 1), ("Db", 1), ("D", 2), ("D#", 3), ("Eb", 3), ("E", 4),
   ("F", 5), ("F#", 6), ("Gb", 6), ("G", 7), ("G#", 8), ("Ab", 8), ("A", 9),
   ("A#", 10), ("Bb", 10), ("B", 11)]

/-- `scale_intervals` table from the source. -/
def scale_intervals : List (String × List ℤ) :=
  [("major", [0, 2, 4, 5, 7, 9, 11]),
   ("natural_minor", [0, 2, 3, 5, 7, 8, 10]),
   ("harmonic_minor", [0, 2, 3, 5, 7, 8, 11]),
   ("melodic_minor", [0, 2, 3, 5, 7, 9, 11]),
   ("dorian", [0, 2, 3, 5, 7, 9, 10]),
   ("phrygian", [0, 1, 3, 5, 7, 8, 10]),
   ("lydian", [0, 2, 4, 6, 7, 9, 11]),
   ("mixolydian", [0, 2, 4, 5, 7, 9, 10]),
   ("locrian", [0, 1, 3, 5, 6, 8, 10]),
   ("pentatonic_major", [0, 2, 4, 7, 9]),
   ("pentatonic_minor", [0, 3, 5, 7, 10]),
   ("blues", [0, 3, 5, 6, 7, 10])]

/-- `get_scale(root_note_name, scale_type, octaves)`: table lookups with
`ValueError` on a missing key, then one pitch per (octave, interval) pair
starting at octave 4, keeping only pitches in [0,127]. -/
def get_scale (root_note_name scale_type : String) (octaves : ℤ) :
    Except String (List ℤ) :=
  match note_name_to_number.lookup root_note_name with
  | none => .error ("Invalid root note name: " ++ root_note_name)
  | some root_note =>
    match scale_intervals.lookup scale_type with
    | none => .error ("Unsupported scale type: " ++ scale_type)
    | some intervals =>
      let starting_octave : ℤ := 4
      .ok ((List.range octaves.toNat).flatMap fun k =>
        let octave : ℤ := starting_octave + k
        intervals.filterMap fun interval =>
          let note_number := root_note + interval + octave * 12
          if 0 ≤ note_number ∧ note_number ≤ 127 then some note_number
          else none)

/-- `str.split(sep)` for a one-character separator, on the character list. -/
def splitOnChar (c : Char) : List Char → List (List Char)
  | [] => [[]]
  | x :: xs =>
    let r := splitOnChar c xs
    if x = c then [] :: r
    else (x :: r.headD []) :: r.tail

/-- Decimal digits to a number; `none` on a non-digit or the empty list. -/
def parseDigits (cs : List Char) : Option ℕ :=
  if cs.isEmpty then none
  else
    cs.foldl (fun acc c =>
      match acc with
      | some n => if '0' ≤ c ∧ c ≤ '9' then some (10 * n + (c.toNat - 48)) else none
      | none => none) (some 0)

/-- Python `int(s)` restricted to an optional sign followed by digits (the
only shapes the program ever feeds it). -/
def pyToInt : List Char → Option ℤ
  | '-' :: rest => (parseDigits rest).map fun n => -(n : ℤ)
  | cs => (parseDigits cs).map fun n => (n : ℤ)

/-- `map(int, time_signature.split('/'))` unpacked into exactly two ints;
`none` models the `ValueError` raised for any other shape. -/
def parseTimeSig (s : String) : Option (ℤ × ℤ) :=
  match (splitOnChar '/' s.toList).map pyToInt with
  | [some a, some b] => some (a, b)
  | _ => none

/-- `generate_steady_rhythm(length, time_signature)`: one duration of 1 beat
for each of `length * beats_per_measure` beats. -/
def generate_steady_rhythm (length : ℤ) (time_signature : String) :
    Except String (List ℚ) :=
  match parseTimeSig time_signature with
  | none => .error "invalid time signature"
  | some (beats_per_measure, _) =>
    let total_beats := length * beats_per_measure
    let beat_duration : ℚ := 1
    .ok (List.replicate total_beats.toNat beat_duration)

/-- `generate_melody(scale_notes, rhythm_pattern)`: one event per rhythm
duration, pitch `random.choice(scale_notes)` (the `i`-th draw is the supplied
index `choice i` reduced mod the list length), velocity 100. -/
def generate_melody (choice : ℕ → ℕ) (scale_notes : List ℤ)
    (rhythm_pattern : List ℚ) : List NoteEvent :=
  (List.range rhythm_pattern.length).map fun i =>
    let note := scale_notes.getD (choice i % scale_notes.length) 0
    { note := note, duration := rhythm_pattern.getD i 0, velocity := 100 }

/-- `generate_chord_progression(scale_notes, progression_pattern,
rhythm_pattern, chord_size)`: one chord per rhythm slot, the progression
cycled, root at index `(degree - 1) % scale_length`, then `chord_size - 1`
further tones each 2 scale positions (mod length) above the previous. -/
def generate_chord_progression (scale_notes : List ℤ)
    (progression_pattern : List ℤ) (rhythm_pattern : List ℚ)
    (chord_size : ℕ) : List Chord :=
  let scale_length := scale_notes.length
  let progression_length := progression_pattern.length
  (List.range rhythm_pattern.length).map fun i =>
    let degree := progression_pattern.getD (i % progression_length) 0
    let duration := rhythm_pattern.getD i 0
    let root_index := ((degree - 1).emod scale_length).toNat
    let root_note := scale_notes.getD root_index 0
    let chord := root_note :: (List.range (chord_size - 1)).map fun (j : ℕ) =>
      let interval := ((j : ℤ) + 1) * 2
      let note_index := (((root_index : ℤ) + interval).emod scale_length).toNat
      scale_notes.getD note_index 0
    { notes := chord, duration := duration, velocity := 80 }

/-- Python `int(x)` on an exact rational: truncation toward zero. -/
def pyInt (q : ℚ) : ℤ :=
  Int.tdiv q.num q.den

/-- Body of the per-measure loop of `generate_bass_line`: transpose the chord
tones down by whole octaves, repeat them `int(duration)` times, and lay the
copies back-to-back from the chord's start time, each `duration/len(pattern)`
long. -/
def bassEventsFor (chord : Chord) (measure : ℕ) (beats_per_measure : ℤ)
    (bass_octave : ℤ) : List NoteEvent :=
  let duration := chord.duration
  let measure_duration : ℚ := (beats_per_measure : ℚ) * 1
  let start_time := chord.start_time.getD ((measure : ℚ) * measure_duration)
  let bass_notes := chord.notes.map fun note => note - 12 * (4 - bass_octave)
  let pattern := (List.replicate (pyInt duration).toNat bass_notes).flatten
  let sub_duration :=
    if pattern.length > 0 then duration / (pattern.length : ℚ) else duration
  (pattern.foldl (fun acc note =>
      (acc.1 ++ [{ note := note, duration := sub_duration, velocity := 100,
                   start_time := some acc.2 }],
       acc.2 + sub_duration))
    ([], start_time)).1

/-- `generate_bass_line(chord_progression, time_signature, bass_octave)`:
one arpeggiated block per measure, sampling the chord at index
`measure * beats_per_measure`. -/
def generate_bass_line (chord_progression : List Chord)
    (time_signature : String) (bass_octave : ℤ) :
    Except String (List NoteEvent) :=
  match parseTimeSig time_signature with
  | none => .error "invalid time signature"
  | some (beats_per_measure, _) =>
    if beats_per_measure = 0 then .error "division by zero"
    else
      let total_measures :=
        pyInt ((chord_progression.length : ℚ) / (beats_per_measure : ℚ))
      .ok ((List.range total_measures.toNat).flatMap fun measure =>
        let index : ℤ := (measure : ℤ) * beats_per_measure
        if index < (chord_progression.length : ℤ) then
          bassEventsFor (chord_progression.getD index.toNat default) measure
            beats_per_measure bass_octave
        else [])

/-- The `drums` dict of General MIDI percussion pitches. -/
def drumsTable : List (String × ℤ) :=
  [("kick", 36), ("snare", 38), ("closed_hat", 42), ("open_hat", 46),
   ("low_tom", 45), ("mid_tom", 48), ("high_tom", 50), ("crash_cymbal", 49),
   ("ride_cymbal", 51)]

/-- `drums[name]` lookup. -/
def drums (name : String) : ℤ :=
  (drumsTable.lookup name).getD 0

/-- One iteration of the step loop of `generate_drum_pattern`: the events of
one 16th-note step, plus the updated count of random draws consumed.
`random.random()` is the stream `g`; `random.choice` over the three toms is
modelled as one further uniform draw partitioned into thirds. -/
def drumStep (g : ℕ → ℚ) (complexity : String) (step : ℕ) (n : ℕ) :
    Except String (List DrumEvent × ℕ) :=
  let beats_per_measure := 4
  let subdivision := 4
  let step_duration : ℚ := 1 / 4
  let time : ℚ := (step : ℚ) * step_duration
  if complexity = "simple" then
    .ok ((if step % subdivision = 0 ∧
            ((step / subdivision) % beats_per_measure = 0 ∨
             (step / subdivision) % beats_per_measure = 2)
          then [⟨drums "kick", time, step_duration⟩] else []) ++
         (if step % subdivision = 0 ∧
            ((step / subdivision) % beats_per_measure = 1 ∨
             (step / subdivision) % beats_per_measure = 3)
          then [⟨drums "snare", time, step_duration⟩] else []) ++
         (if step % (subdivision / 2) = 0
          then [⟨drums "closed_hat", time, step_duration⟩] else []), n)
  else if complexity = "complex" then
    let kick := if g n < 1/2 then [⟨drums "kick", time, step_duration⟩] else []
    let n := n + 1
    let (snare, n) :=
      if step % subdivision = 0 ∧
          ((step / subdivision) % beats_per_measure = 1 ∨
           (step / subdivision) % beats_per_measure = 3)
      then ([⟨drums "snare", time, step_duration⟩], n)
      else (if g n < 1/10
            then [⟨drums "snare", time, step_duration * (1/2)⟩] else [], n + 1)
    let (hat, n) :=
      if step % (subdivision / 2) = 0 then
        (if g n < 1/5 then [⟨drums "open_hat", time, step_duration⟩]
         else [⟨drums "closed_hat", time, step_duration⟩], n + 1)
      else ([], n)
    let (toms, n) :=
      if g n < 1/20 then
        let c := g (n + 1)
        ([⟨if c < 1/3 then drums "low_tom"
           else if c < 2/3 then drums "mid_tom"
           else drums "high_tom", time, step_duration⟩], n + 2)
      else ([], n + 1)
    let crash :=
      if g n < 1/50 then [⟨drums "crash_cymbal", time, step_duration⟩] else []
    let n := n + 1
    .ok (kick ++ snare ++ hat ++ toms ++ crash, n)
  else
    .error "Invalid complexity level. Choose 'simple' or 'complex'."

/-- The step loop of `generate_drum_pattern`, extending the accumulated
pattern with each step's events and propagating the `ValueError`. -/
def drumLoop (g : ℕ → ℚ) (complexity : String) :
    List ℕ → ℕ → Except String (List DrumEvent)
  | [], _ => .ok []
  | step :: rest, n =>
    match drumStep g complexity step n with
    | .error e => .error e
    | .ok (events, n') => (drumLoop g complexity rest n').map (events ++ ·)

/-- `generate_drum_pattern(length, complexity)` on a 16-step-per-measure
grid, with the randomness stream `g`. -/
def generate_drum_pattern (g : ℕ → ℚ) (length : ℤ) (complexity : String) :
    Except String (List DrumEvent) :=
  let beats_per_measure : ℤ := 4
  let subdivision : ℤ := 4
  let total_steps := length * beats_per_measure * subdivision
  drumLoop g complexity (List.range total_steps.toNat) 0

/-- The spec's description of the simple drum pattern, per measure count:
kick on the 16th-note steps aligned to beats 1 and 3 (step ≡ 0, 8 mod 16),
snare on beats 2 and 4 (step ≡ 4, 12 mod 16), closed hi-hat on every
8th-note step (even step), each event 1/4 beat long, the three rules
independent and co-firing at the same time. -/
def drumSimpleSpec (measures : ℕ) : List DrumEvent :=
  (List.range (measures * 16)).flatMap fun step =>
    (if step % 16 = 0 ∨ step % 16 = 8
     then [⟨drums "kick", (step : ℚ) * (1 / 4), 1 / 4⟩] else []) ++
    (if step % 16 = 4 ∨ step % 16 = 12
     then [⟨drums "snare", (step : ℚ) * (1 / 4), 1 / 4⟩] else []) ++
    (if step % 2 = 0
     then [⟨drums "closed_hat", (step : ℚ) * (1 / 4), 1 / 4⟩] else [])

/-- The `for chord in chords: chord['start_time'] = current_time;
current_time += chord['duration']` pass of `generate_song_action`. -/
def stampChords (chords : List Chord) (current_time : ℚ) :
    List Chord × ℚ :=
  chords.foldl (fun acc c =>
    (acc.1 ++ [{ c with start_time := some acc.2 }], acc.2 + c.duration))
    ([], current_time)

/-- The same start-time pass applied to melody note events. -/
def stampNotes (notes : List NoteEvent) (current_time : ℚ) :
    List NoteEvent × ℚ :=
  notes.foldl (fun acc e =>
    (acc.1 ++ [{ e with start_time := some acc.2 }], acc.2 + e.duration))
    ([], current_time)

/-- `generate_steady_rhythm(section_length, time_signature)` as called inside
the section loop of `generate_song_action` (8 measures of 4/4). -/
def songSectionRhythm : List ℚ :=
  match generate_steady_rhythm 8 "4/4" with
  | .ok r => r
  | .error _ => []

/-- The section loop of `generate_song_action`: for each section, build the
chords of a random progression over the section rhythm, stamp them from the
running `current_time`, build and stamp the melody from
`current_time - sum(section_rhythm)`, and concatenate per part. The random
degree draws of section `k` are the injected list `progs k`, and the melody's
`random.choice` draws are `choice` (section `k` consuming indices from
`32 * k`). -/
def songSections (scale_notes : List ℤ) (progs : ℕ → List ℤ)
    (choice : ℕ → ℕ) : List ℕ → ℚ → List Chord × List NoteEvent
  | [], _ => ([], [])
  | k :: rest, current_time =>
    let section_rhythm := songSectionRhythm
    let chords := generate_chord_progression scale_notes (progs k)
      section_rhythm 3
    let stamped := stampChords chords current_time
    let melody_events := generate_melody (fun i => choice (32 * k + i))
      scale_notes section_rhythm
    let melody := (stampNotes melody_events
      (stamped.2 - section_rhythm.sum)).1
    let tail := songSections scale_notes progs choice rest stamped.2
    (stamped.1 ++ tail.1, melody ++ tail.2)

/-- The chord/melody timeline assembly of `generate_song_action`: sections
`['Verse', 'Chorus', 'Verse', 'Chorus']` of 8 measures of 4/4 each, starting
at time 0, returning the combined chord events and combined melody events
(the drum/bass tracks and all file output do not touch these parts'
timestamps and are omitted). -/
def generate_song_action (scale_notes : List ℤ) (progs : ℕ → List ℤ)
    (choice : ℕ → ℕ) : List Chord × List NoteEvent :=
  songSections scale_notes progs choice [0, 1, 2, 3] 0

/-- C1: for valid root/mode and positive octave span the claim's general
invariants describe `get_scale`, but its concrete example does not: the code
starts at `octave * 12` with octave 4, so root C, mode major, span 1 yields
[48,50,52,53,55,57,59], not the claimed [60,62,64,65,67,69,71] (the source's
own table comment says C4 = MIDI 60). -/
theorem C1_scale_example_mismatch :
    get_scale "C" "major" 1 = .ok [48, 50, 52, 53, 55, 57, 59] ∧
    ¬ get_scale "C" "major" 1 = .ok [60, 62, 64, 65, 67, 69, 71] := by
  decide

/-- C3: for every measure count and parsable time signature `N/M` with
positive numerator, the steady rhythm has exactly `measures × N` entries,
each exactly 1 beat, summing to `measures × N`, and any other time signature
with the same numerator yields the identical pattern. -/
theorem C3_generate_steady_rhythm (m n u : ℤ) (ts : String)
    (hts : parseTimeSig ts = some (n, u)) (hm : 0 ≤ m) (hn : 0 < n) :
    ∃ r : List ℚ, generate_steady_rhythm m ts = .ok r ∧
      (r.length : ℤ) = m * n ∧
      (∀ x ∈ r, x = (1 : ℚ)) ∧
      r.sum = ((m * n : ℤ) : ℚ) ∧
      ∀ (ts2 : String) (u2 : ℤ), parseTimeSig ts2 = some (n, u2) →
        generate_steady_rhythm m ts2 = .ok r := by
  have hmn : 0 ≤ m * n := mul_nonneg hm hn.le
  refine ⟨List.replicate (m * n).toNat 1, ?_, ?_, ?_, ?_, ?_⟩
  · simp only [generate_steady_rhythm, hts]
  · simp only [List.length_replicate]
    omega
  · intro x hx
    exact List.eq_of_mem_replicate hx
  · rw [List.sum_replicate, nsmul_eq_mul, mul_one]
    exact_mod_cast congrArg (fun z : ℤ => (z : ℚ)) (Int.toNat_of_nonneg hmn)
  · intro ts2 u2 h2
    simp only [generate_steady_rhythm, h2]

/-- C3 witness: measures 2, time signature 4/4. -/
theorem C3_witness :
    ∃ r : List ℚ, generate_steady_rhythm 2 "4/4" = .ok r ∧
      (r.length : ℤ) = 2 * 4 ∧
      (∀ x ∈ r, x = (1 : ℚ)) ∧
      r.sum = ((2 * 4 : ℤ) : ℚ) ∧
      ∀ (ts2 : String) (u2 : ℤ), parseTimeSig ts2 = some (4, u2) →
        generate_steady_rhythm 2 ts2 = .ok r :=
  C3_generate_steady_rhythm 2 4 4 "4/4" (by decide) (by decide) (by decide)

/-- C6: over a non-empty scale list, the melody has one event per rhythm
entry, the events' durations are exactly the rhythm pattern, every pitch is a
member of the scale list, and every velocity is the fixed default 100. -/
theorem C6_generate_melody (choice : ℕ → ℕ) (scale_notes : List ℤ)
    (rhythm : List ℚ) (hs : scale_notes ≠ []) :
    (generate_melody choice scale_notes rhythm).length = rhythm.length ∧
    (generate_melody choice scale_notes rhythm).map (fun e => e.duration)
      = rhythm ∧
    ∀ e ∈ generate_melody choice scale_notes rhythm,
      e.note ∈ scale_notes ∧ e.velocity = 100 := by
  refine ⟨by simp [generate_melody], ?_, ?_⟩
  · apply List.ext_getElem (by simp [generate_melody])
    intro i h1 h2
    simp only [generate_melody, List.getElem_map, List.getElem_range]
    exact List.getD_eq_getElem rhythm 0 h2
  · intro e he
    simp only [generate_melody, List.mem_map, List.mem_range] at he
    obtain ⟨i, _, rfl⟩ := he
    refine ⟨?_, rfl⟩
    have hlen : 0 < scale_notes.length := List.length_pos.mpr hs
    have hm : choice i % scale_notes.length < scale_notes.length :=
      Nat.mod_lt _ hlen
    rw [List.getD_eq_getElem scale_notes 0 hm]
    exact List.getElem_mem hm

/-- C6 witness: two rhythm entries over the two-note scale [60, 62]. -/
theorem C6_witness :
    (generate_melody (fun _ => 0) [60, 62] [1, (1 : ℚ)/2]).length
      = [1, (1 : ℚ)/2].length ∧
    (generate_melody (fun _ => 0) [60, 62] [1, (1 : ℚ)/2]).map
      (fun e => e.duration) = [1, (1 : ℚ)/2] ∧
    ∀ e ∈ generate_melody (fun _ => 0) [60, 62] [1, (1 : ℚ)/2],
      e.note ∈ [60, 62] ∧ e.velocity = 100 :=
  C6_generate_melody (fun _ => 0) [60, 62] [1, (1 : ℚ)/2] (by decide)

/-- C10: for every measure count ≤ 0 the step loop body never runs, so the
drum generator returns the empty pattern for every complexity string,
including unrecognized ones. -/
theorem C10_drum_pattern_nonpositive (g : ℕ → ℚ) (length : ℤ)
    (complexity : String) (h : length ≤ 0) :
    generate_drum_pattern g length complexity = .ok [] := by
  have h16 : (length * 4 * 4).toNat = 0 := by omega
  simp only [generate_drum_pattern, h16]
  rfl

/-- C10 witness: -3 measures with an unrecognized complexity string. -/
theorem C10_witness :
    generate_drum_pattern (fun _ => 0) (-3) "weird" = .ok [] :=
  C10_drum_pattern_nonpositive (fun _ => 0) (-3) "weird" (by decide)

/-- C8 counterexample: at measure count 0 an invalid complexity string does
not fail — the generator returns the empty pattern, because the complexity
check sits inside the per-step loop. -/
theorem C8_counterexample :
    generate_drum_pattern (fun _ => 0) 0 "bogus" = .ok [] := by
  rfl

/-- C8 (amended to measure counts ≥ 1): with at least one step, any
complexity other than 'simple'/'complex' fails at the first step with the
`ValueError` naming the complexity parameter, and no drum events are
produced. -/
theorem C8_invalid_complexity (g : ℕ → ℚ) (length : ℤ) (complexity : String)
    (hl : 1 ≤ length) (h1 : complexity ≠ "simple")
    (h2 : complexity ≠ "complex") :
    generate_drum_pattern g length complexity =
      .error "Invalid complexity level. Choose 'simple' or 'complex'." := by
  obtain ⟨k, hk⟩ : ∃ k, (length * 4 * 4).toNat = k + 1 :=
    ⟨(length * 4 * 4).toNat - 1, by omega⟩
  simp only [generate_drum_pattern, hk, List.range_succ_eq_map]
  simp [drumLoop, drumStep, h1, h2]

/-- C8 witness: one measure with complexity string "drums". -/
theorem C8_witness :
    generate_drum_pattern (fun _ => 0) 1 "drums" =
      .error "Invalid complexity level. Choose 'simple' or 'complex'." :=
  C8_invalid_complexity (fun _ => 0) 1 "drums" (by decide) (by decide)
    (by decide)

/-- C2: one chord per rhythm slot with the progression cycled; the chord of
degree `d` has duration equal to its rhythm entry, exactly `N` pitches, and
its `k`-th pitch (0-based) is the scale note at index
`(d - 1 + 2k) mod scaleLength`. -/
theorem C2_generate_chord_progression (scale_notes prog : List ℤ)
    (rhythm : List ℚ) (N : ℕ) (hs : scale_notes ≠ []) (hp : prog ≠ [])
    (hN : 1 ≤ N) :
    (generate_chord_progression scale_notes prog rhythm N).length
      = rhythm.length ∧
    ∀ i, i < rhythm.length →
      ((generate_chord_progression scale_notes prog rhythm N).getD i
          default).duration = rhythm.getD i 0 ∧
      ((generate_chord_progression scale_notes prog rhythm N).getD i
          default).notes.length = N ∧
      ∀ k, k < N →
        ((generate_chord_progression scale_notes prog rhythm N).getD i
            default).notes.getD k 0 =
          scale_notes.getD
            (((prog.getD (i % prog.length) 0 - 1 + 2 * (k : ℤ)).emod
                scale_notes.length).toNat) 0 := by
  have hL : 0 < scale_notes.length := List.length_pos.mpr hs
  have hLz : (scale_notes.length : ℤ) ≠ 0 := by exact_mod_cast hL.ne'
  have key : ∀ a b L : ℤ, (a.emod L + b).emod L = (a + b).emod L :=
    fun a b L => Int.emod_add_emod a L b
  refine ⟨by simp [generate_chord_progression], ?_⟩
  intro i hi
  set d : ℤ := prog.getD (i % prog.length) 0 with hd
  set f : ℕ → ℤ := fun j =>
    scale_notes.getD
      ((((((d - 1).emod scale_notes.length).toNat : ℤ) + ((j : ℤ) + 1) * 2).emod
        scale_notes.length).toNat) 0 with hf
  have hget : (generate_chord_progression scale_notes prog rhythm N).getD i
      default =
      { notes := scale_notes.getD (((d - 1).emod scale_notes.length).toNat) 0
          :: (List.range (N - 1)).map f,
        duration := rhythm.getD i 0, velocity := 80,
        start_time := none } := by
    have hlen :
        i < (generate_chord_progression scale_notes prog rhythm N).length := by
      simpa [generate_chord_progression] using hi
    rw [List.getD_eq_getElem _ _ hlen]
    simp [generate_chord_progression, hf, hd]
  rw [hget]
  refine ⟨rfl, by simp [hf]; omega, ?_⟩
  intro k hk
  have hroot : ((((d - 1).emod scale_notes.length).toNat : ℤ)) =
      (d - 1).emod scale_notes.length :=
    Int.toNat_of_nonneg (Int.emod_nonneg _ hLz)
  match k with
  | 0 => norm_num [List.getD_cons_zero]
  | Nat.succ j =>
    have hj : j < N - 1 := by omega
    have hjlen : j < ((List.range (N - 1)).map f).length := by simpa using hj
    simp only [List.getD_cons_succ]
    rw [List.getD_eq_getElem _ _ hjlen, List.getElem_map, List.getElem_range,
      hf]
    simp only
    rw [hroot, key]
    congr 2
    push_cast
    ring

/-- C2 witness: C-major scale, progression [2], one rhythm slot, triads. -/
theorem C2_witness :
    (generate_chord_progression [60, 62, 64, 65, 67, 69, 71] [2] [1] 3).length
      = ([1] : List ℚ).length ∧
    ∀ i, i < ([1] : List ℚ).length →
      ((generate_chord_progression [60, 62, 64, 65, 67, 69, 71] [2] [1]
          3).getD i default).duration = ([1] : List ℚ).getD i 0 ∧
      ((generate_chord_progression [60, 62, 64, 65, 67, 69, 71] [2] [1]
          3).getD i default).notes.length = 3 ∧
      ∀ k, k < 3 →
        ((generate_chord_progression [60, 62, 64, 65, 67, 69, 71] [2] [1]
            3).getD i default).notes.getD k 0 =
          ([60, 62, 64, 65, 67, 69, 71] : List ℤ).getD
            (((([2] : List ℤ).getD (i % ([2] : List ℤ).length) 0 - 1
                + 2 * (k : ℤ)).emod
                ([60, 62, 64, 65, 67, 69, 71] : List ℤ).length).toNat) 0 :=
  C2_generate_chord_progression [60, 62, 64, 65, 67, 69, 71] [2] [1] 3
    (by decide) (by decide) (by decide)

/-- The step loop under complexity 'simple' consumes no randomness and emits,
per step, kick on steps ≡ 0, 8 (mod 16), snare on steps ≡ 4, 12 (mod 16) and
closed hi-hat on even steps. -/
lemma drumLoop_simple (g : ℕ → ℚ) (steps : List ℕ) (n : ℕ) :
    drumLoop g "simple" steps n = .ok (steps.flatMap fun step =>
      (if step % 16 = 0 ∨ step % 16 = 8
       then [⟨drums "kick", (step : ℚ) * (1 / 4), 1 / 4⟩] else []) ++
      (if step % 16 = 4 ∨ step % 16 = 12
       then [⟨drums "snare", (step : ℚ) * (1 / 4), 1 / 4⟩] else []) ++
      (if step % 2 = 0
       then [⟨drums "closed_hat", (step : ℚ) * (1 / 4), 1 / 4⟩] else [])) := by
  induction steps generalizing n with
  | nil => rfl
  | cons s rest ih =>
    have h1 : (s % 4 = 0 ∧ ((s / 4) % 4 = 0 ∨ (s / 4) % 4 = 2)) ↔
        (s % 16 = 0 ∨ s % 16 = 8) := by omega
    have h2 : (s % 4 = 0 ∧ ((s / 4) % 4 = 1 ∨ (s / 4) % 4 = 3)) ↔
        (s % 16 = 4 ∨ s % 16 = 12) := by omega
    simp only [drumLoop, drumStep, List.flatMap_cons, ih]
    norm_num [h1, h2, Except.map, List.append_assoc]

/-- C5: the simple drum pattern is a pure function of the measure count (any
two randomness streams give the identical result) and equals the spec's
per-measure description `drumSimpleSpec`: kick on the 16th-note steps of
beats 1 and 3, snare on beats 2 and 4, closed hi-hat on every 8th-note step,
all co-firing independently, each 1/4 beat long. -/
theorem C5_drum_simple_deterministic (g g' : ℕ → ℚ) (m : ℤ) (hm : 1 ≤ m) :
    generate_drum_pattern g m "simple" = .ok (drumSimpleSpec m.toNat) ∧
    generate_drum_pattern g m "simple" =
      generate_drum_pattern g' m "simple" := by
  have key : ∀ h : ℕ → ℚ,
      generate_drum_pattern h m "simple" = .ok (drumSimpleSpec m.toNat) := by
    intro h
    simp only [generate_drum_pattern]
    rw [drumLoop_simple, drumSimpleSpec,
      show (m * 4 * 4).toNat = m.toNat * 16 by omega]
  exact ⟨key g, (key g).trans (key g').symm⟩

/-- C5 witness: one measure, two distinct randomness streams. -/
theorem C5_witness :
    generate_drum_pattern (fun _ => 0) 1 "simple" = .ok (drumSimpleSpec 1) ∧
    generate_drum_pattern (fun _ => 0) 1 "simple" =
      generate_drum_pattern (fun _ => 1) 1 "simple" :=
  C5_drum_simple_deterministic (fun _ => 0) (fun _ => 1) 1 (by decide)

/-- Closed form of the arpeggiation fold of `generate_bass_line`: starting
from `(acc, t0)`, the events are appended back-to-back, the `k`-th one at
`t0 + k·sub`, and the clock advances by `len·sub`. -/
lemma bass_fold (sub t0 : ℚ) (l : List ℤ) (acc : List NoteEvent) :
    l.foldl (fun a note =>
        (a.1 ++ [{ note := note, duration := sub, velocity := 100,
                   start_time := some a.2 }],
         a.2 + sub)) (acc, t0)
      = (acc ++ (List.range l.length).map (fun k =>
          { note := l.getD k 0, duration := sub, velocity := 100,
            start_time := some (t0 + (k : ℚ) * sub) }),
         t0 + (l.length : ℚ) * sub) := by
  induction l generalizing acc t0 with
  | nil => simp
  | cons x xs ih =>
    simp only [List.foldl_cons, ih, List.length_cons, List.range_succ_eq_map,
      List.map_cons, List.map_map]
    refine Prod.ext ?_ ?_
    · simp only [List.append_assoc, List.singleton_append]
      congr 1
      congr 1
      · simp
      · apply List.map_congr_left
        intro k _
        simp only [Function.comp_apply, List.getD_cons_succ]
        congr 2
        push_cast
        ring
    · simp only
      push_cast
      ring

/-- The flattened `r` copies of `l` have length `r * |l|`. -/
lemma flatten_replicate_length (r : ℕ) (l : List ℤ) :
    ((List.replicate r l).flatten).length = r * l.length := by
  induction r with
  | zero => simp
  | succ r ih => simp [List.replicate_succ, ih, Nat.succ_mul, Nat.add_comm]

/-- Indexing into `r` flattened copies of `l` is indexing `l` cyclically. -/
lemma flatten_replicate_getD (r : ℕ) (l : List ℤ) (k : ℕ) (d : ℤ)
    (hk : k < r * l.length) :
    ((List.replicate r l).flatten).getD k d = l.getD (k % l.length) d := by
  induction r generalizing k with
  | zero => rw [Nat.zero_mul] at hk; omega
  | succ r ih =>
    rw [Nat.succ_mul] at hk
    rw [List.replicate_succ, List.flatten_cons]
    by_cases h : k < l.length
    · rw [List.getD_append _ _ _ _ h, Nat.mod_eq_of_lt h]
    · push_neg at h
      rw [List.getD_append_right _ _ _ _ h, ih _ (by omega),
        ← Nat.mod_eq_sub_mod h]

/-- Closed form of `bassEventsFor` when the truncated duration is ≥ 1 and the
chord is non-empty: `chordSize * int(duration)` events, cycling the
transposed chord tones, each `duration / (chordSize * int(duration))` long,
back-to-back from the chord's start time. -/
lemma bassEventsFor_spec (chord : Chord) (measure : ℕ) (bpm oct : ℤ)
    (hdur : 1 ≤ pyInt chord.duration) (hnotes : chord.notes ≠ []) :
    bassEventsFor chord measure bpm oct =
      (List.range (chord.notes.length * (pyInt chord.duration).toNat)).map
        (fun k =>
          { note := chord.notes.getD (k % chord.notes.length) 0
              - 12 * (4 - oct),
            duration := chord.duration
              / ((chord.notes.length * (pyInt chord.duration).toNat : ℕ) : ℚ),
            velocity := 100,
            start_time := some (chord.start_time.getD
                ((measure : ℚ) * ((bpm : ℚ) * 1))
              + (k : ℚ) * (chord.duration
                / ((chord.notes.length * (pyInt chord.duration).toNat : ℕ)
                  : ℚ))) }) := by
  have hlen0 : 0 < chord.notes.length := List.length_pos.mpr hnotes
  have hr : 0 < (pyInt chord.duration).toNat := by omega
  have hbn : (chord.notes.map fun note =>
      note - 12 * (4 - oct)).length = chord.notes.length := by
    simp
  have hplen : ((List.replicate (pyInt chord.duration).toNat
      (chord.notes.map fun note => note - 12 * (4 - oct))).flatten).length
      = chord.notes.length * (pyInt chord.duration).toNat := by
    rw [flatten_replicate_length, hbn, Nat.mul_comm]
  have hpos : 0 < chord.notes.length * (pyInt chord.duration).toNat :=
    Nat.mul_pos hlen0 hr
  simp only [bassEventsFor]
  rw [bass_fold]
  simp only [List.nil_append, hplen, if_pos hpos]
  apply List.map_congr_left
  intro k hk
  rw [List.mem_range] at hk
  have hk' : k < (pyInt chord.duration).toNat * (chord.notes.map fun note =>
      note - 12 * (4 - oct)).length := by
    rw [hbn, Nat.mul_comm]
    exact hk
  rw [flatten_replicate_getD _ _ _ _ hk', hbn]
  have hmod : k % chord.notes.length < chord.notes.length :=
    Nat.mod_lt _ hlen0
  have hmod' : k % chord.notes.length < (chord.notes.map fun note =>
      note - 12 * (4 - oct)).length := by
    rw [hbn]
    exact hmod
  rw [List.getD_eq_getElem _ _ hmod', List.getElem_map,
    ← List.getD_eq_getElem chord.notes 0 hmod]

/-- Python `int` of an integer-valued rational is that integer. -/
lemma pyInt_intCast (z : ℤ) : pyInt ((z : ℚ)) = z := by
  rw [pyInt, Rat.num_intCast, Rat.den_intCast]
  cases z with
  | ofNat m => simp [Int.tdiv]
  | negSucc m => simp [Int.tdiv, Int.negSucc_eq]

/-- C4 counterexample: one chord of duration 2 with 3 tones; the claim says
each arpeggiated bass note lasts `duration / chordSize = 2/3` beats, but the
code repeats the tones `int(duration) = 2` times and emits six notes of
1/3 beat each. -/
theorem C4_counterexample :
    generate_bass_line
        [{ notes := [48, 52, 55], duration := 2, velocity := 80,
           start_time := some 0 }] "1/4" 3 =
      .ok [⟨36, 1/3, 100, some 0⟩, ⟨40, 1/3, 100, some (1/3)⟩,
           ⟨43, 1/3, 100, some (2/3)⟩, ⟨36, 1/3, 100, some 1⟩,
           ⟨40, 1/3, 100, some (4/3)⟩, ⟨43, 1/3, 100, some (5/3)⟩] ∧
    (1 : ℚ)/3 ≠ 2/3 := by
  refine ⟨?_, by norm_num⟩
  have hts : parseTimeSig "1/4" = some (1, 4) := by rfl
  have hpy2 : pyInt (2 : ℚ) = 2 := by
    have h : ((2 : ℤ) : ℚ) = (2 : ℚ) := by norm_num
    rw [← h, pyInt_intCast]
  simp only [generate_bass_line, hts]
  rw [if_neg (by norm_num : ¬ (1 : ℤ) = 0)]
  have hq : ((([(⟨[48, 52, 55], 2, 80, some 0⟩ : Chord)]).length : ℚ)
      / ((1 : ℤ) : ℚ)) = ((1 : ℤ) : ℚ) := by
    push_cast
    norm_num
  rw [hq, pyInt_intCast]
  rw [show List.range ((1 : ℤ)).toNat = [0] from rfl]
  simp only [List.flatMap_cons, List.flatMap_nil, List.append_nil]
  rw [if_pos (by simp)]
  rw [show ([(⟨[48, 52, 55], 2, 80, some 0⟩ : Chord)]).getD
      (((0 : ℕ) : ℤ) * 1).toNat default
      = (⟨[48, 52, 55], 2, 80, some 0⟩ : Chord) from rfl]
  rw [bassEventsFor_spec _ _ _ _ (by rw [show (⟨[48, 52, 55], 2, 80,
      some 0⟩ : Chord).duration = (2 : ℚ) from rfl, hpy2]; norm_num)
    (by decide)]
  dsimp only
  simp only [hpy2]
  rw [show (([48, 52, 55] : List ℤ).length * (2 : ℤ).toNat) = 6 from rfl]
  rw [show List.range 6 = [0, 1, 2, 3, 4, 5] from rfl]
  simp only [List.map_cons, List.map_nil]
  norm_num [List.getD]

/-- C4 (amended): for a parsable time signature with positive numerator the
bass line is the concatenation of per-measure blocks `bassEventsFor`; within
a chord's block (when `int(duration) ≥ 1` and the chord is non-empty) the
`chordSize × int(duration)` notes are laid out back-to-back from the chord's
start time, each lasting `duration / (chordSize × int(duration))` beats, and
their durations sum exactly to the chord's duration. -/
theorem C4_bass_arpeggiation (cp : List Chord) (ts : String)
    (bpm u oct : ℤ) (chord : Chord) (measure : ℕ)
    (hts : parseTimeSig ts = some (bpm, u)) (hbpm : 0 < bpm)
    (hdur : 1 ≤ pyInt chord.duration) (hnotes : chord.notes ≠ []) :
    generate_bass_line cp ts oct =
      .ok ((List.range
          (pyInt ((cp.length : ℚ) / (bpm : ℚ))).toNat).flatMap fun m =>
        if ((m : ℤ) * bpm) < (cp.length : ℤ)
        then bassEventsFor (cp.getD ((m : ℤ) * bpm).toNat default) m bpm oct
        else []) ∧
    bassEventsFor chord measure bpm oct =
      (List.range (chord.notes.length * (pyInt chord.duration).toNat)).map
        (fun k =>
          { note := chord.notes.getD (k % chord.notes.length) 0
              - 12 * (4 - oct),
            duration := chord.duration
              / ((chord.notes.length * (pyInt chord.duration).toNat : ℕ) : ℚ),
            velocity := 100,
            start_time := some (chord.start_time.getD
                ((measure : ℚ) * ((bpm : ℚ) * 1))
              + (k : ℚ) * (chord.duration
                / ((chord.notes.length * (pyInt chord.duration).toNat : ℕ)
                  : ℚ))) }) ∧
    ((bassEventsFor chord measure bpm oct).map (fun e => e.duration)).sum
      = chord.duration := by
  have hspec := bassEventsFor_spec chord measure bpm oct hdur hnotes
  refine ⟨?_, hspec, ?_⟩
  · simp only [generate_bass_line, hts]
    rw [if_neg hbpm.ne']
  · have hlen0 : 0 < chord.notes.length := List.length_pos.mpr hnotes
    have hr : 0 < (pyInt chord.duration).toNat := by omega
    have hpos : 0 < chord.notes.length * (pyInt chord.duration).toNat :=
      Nat.mul_pos hlen0 hr
    have hne : ((chord.notes.length * (pyInt chord.duration).toNat : ℕ) : ℚ)
        ≠ 0 := by
      exact_mod_cast hpos.ne'
    rw [hspec, List.map_map]
    have : ((List.range (chord.notes.length
        * (pyInt chord.duration).toNat)).map fun _ => chord.duration
          / ((chord.notes.length * (pyInt chord.duration).toNat : ℕ) : ℚ)).sum
        = chord.duration := by
      rw [List.map_const', List.length_range, List.sum_replicate,
        nsmul_eq_mul, mul_comm, div_mul_cancel₀ _ hne]
    exact this

/-- C4 witness: empty progression list plus one concrete chord of duration 1
with a single tone, 4/4 time. -/
theorem C4_witness :
    generate_bass_line [] "4/4" 3 =
      .ok ((List.range
          (pyInt ((([] : List Chord).length : ℚ) / ((4 : ℤ) : ℚ))).toNat).flatMap
        fun m =>
        if ((m : ℤ) * 4) < (([] : List Chord).length : ℤ)
        then bassEventsFor (([] : List Chord).getD ((m : ℤ) * 4).toNat default)
          m 4 3
        else []) ∧
    bassEventsFor ⟨[48], 1, 80, some 0⟩ 0 4 3 =
      (List.range ((⟨[48], 1, 80, some 0⟩ : Chord).notes.length
          * (pyInt (⟨[48], 1, 80, some 0⟩ : Chord).duration).toNat)).map
        (fun k =>
          { note := (⟨[48], 1, 80, some 0⟩ : Chord).notes.getD
              (k % (⟨[48], 1, 80, some 0⟩ : Chord).notes.length) 0
              - 12 * (4 - 3),
            duration := (⟨[48], 1, 80, some 0⟩ : Chord).duration
              / (((⟨[48], 1, 80, some 0⟩ : Chord).notes.length
                * (pyInt (⟨[48], 1, 80, some 0⟩ : Chord).duration).toNat : ℕ)
                  : ℚ),
            velocity := 100,
            start_time := some ((⟨[48], 1, 80,
                some 0⟩ : Chord).start_time.getD
                (((0 : ℕ) : ℚ) * (((4 : ℤ) : ℚ) * 1))
              + (k : ℚ) * ((⟨[48], 1, 80, some 0⟩ : Chord).duration
                / (((⟨[48], 1, 80, some 0⟩ : Chord).notes.length
                  * (pyInt (⟨[48], 1, 80,
                    some 0⟩ : Chord).duration).toNat : ℕ) : ℚ))) }) ∧
    ((bassEventsFor ⟨[48], 1, 80, some 0⟩ 0 4 3).map
        (fun e => e.duration)).sum
      = (⟨[48], 1, 80, some 0⟩ : Chord).duration :=
  C4_bass_arpeggiation [] "4/4" 4 4 3 ⟨[48], 1, 80, some 0⟩ 0 (by rfl)
    (by decide)
    (by
      have h : ((⟨[48], 1, 80, some 0⟩ : Chord)).duration = ((1 : ℤ) : ℚ) := by
        norm_num
      rw [h, pyInt_intCast])
    (by decide)

/-- The section rhythm of `generate_song_action` is 32 beats of 1. -/
lemma songSectionRhythm_eq : songSectionRhythm = List.replicate 32 (1 : ℚ) :=
  rfl

/-- The section rhythm sums to 32 beats. -/
lemma songSectionRhythm_sum : songSectionRhythm.sum = 32 := by
  rw [songSectionRhythm_eq, List.sum_replicate, nsmul_eq_mul, mul_one]
  norm_num

/-- `getD` of a map over `List.range` at an in-range index. -/
lemma getD_map_range {α : Type} [Inhabited α] (n : ℕ) (f : ℕ → α) (i : ℕ)
    (h : i < n) :
    ((List.range n).map f).getD i default = f i := by
  have h' : i < ((List.range n).map f).length := by simpa using h
  rw [List.getD_eq_getElem _ _ h', List.getElem_map, List.getElem_range]

/-- Closed form of the chord start-time stamping fold when every chord lasts
1 beat: the `i`-th chord starts at `t0 + i` and the clock ends at
`t0 + length`. -/
lemma stamp_chords_fold (l : List Chord) (hd : ∀ c ∈ l, c.duration = 1)
    (acc : List Chord) (t0 : ℚ) :
    l.foldl (fun a c =>
        (a.1 ++ [{ c with start_time := some a.2 }], a.2 + c.duration))
      (acc, t0)
      = (acc ++ (List.range l.length).map (fun i =>
          { l.getD i default with start_time := some (t0 + (i : ℚ)) }),
         t0 + (l.length : ℚ)) := by
  induction l generalizing acc t0 with
  | nil => simp
  | cons c cs ih =>
    have hc : c.duration = 1 := hd c (by simp)
    simp only [List.foldl_cons, hc]
    rw [ih (fun x hx => hd x (by simp [hx]))]
    refine Prod.ext ?_ ?_
    · simp only [List.length_cons, List.range_succ_eq_map, List.map_cons,
        List.map_map, List.append_assoc, List.singleton_append]
      congr 1
      congr 1
      · simp [hc]
      · apply List.map_congr_left
        intro k _
        simp only [Function.comp_apply, List.getD_cons_succ]
        congr 1
        push_cast
        ring
    · simp only [List.length_cons]
      push_cast
      ring

/-- The same closed form for the melody stamping fold. -/
lemma stamp_notes_fold (l : List NoteEvent) (hd : ∀ e ∈ l, e.duration = 1)
    (acc : List NoteEvent) (t0 : ℚ) :
    l.foldl (fun a e =>
        (a.1 ++ [{ e with start_time := some a.2 }], a.2 + e.duration))
      (acc, t0)
      = (acc ++ (List.range l.length).map (fun i =>
          { l.getD i default with start_time := some (t0 + (i : ℚ)) }),
         t0 + (l.length : ℚ)) := by
  induction l generalizing acc t0 with
  | nil => simp
  | cons c cs ih =>
    have hc : c.duration = 1 := hd c (by simp)
    simp only [List.foldl_cons, hc]
    rw [ih (fun x hx => hd x (by simp [hx]))]
    refine Prod.ext ?_ ?_
    · simp only [List.length_cons, List.range_succ_eq_map, List.map_cons,
        List.map_map, List.append_assoc, List.singleton_append]
      congr 1
      congr 1
      · simp [hc]
      · apply List.map_congr_left
        intro k _
        simp only [Function.comp_apply, List.getD_cons_succ]
        congr 1
        push_cast
        ring
    · simp only [List.length_cons]
      push_cast
      ring

/-- `stampChords` on 1-beat chords. -/
lemma stampChords_spec (l : List Chord) (hd : ∀ c ∈ l, c.duration = 1)
    (t0 : ℚ) :
    stampChords l t0 = ((List.range l.length).map (fun i =>
        { l.getD i default with start_time := some (t0 + (i : ℚ)) }),
      t0 + (l.length : ℚ)) := by
  rw [stampChords, stamp_chords_fold l hd [] t0, List.nil_append]

/-- `stampNotes` on 1-beat notes. -/
lemma stampNotes_spec (l : List NoteEvent) (hd : ∀ e ∈ l, e.duration = 1)
    (t0 : ℚ) :
    stampNotes l t0 = ((List.range l.length).map (fun i =>
        { l.getD i default with start_time := some (t0 + (i : ℚ)) }),
      t0 + (l.length : ℚ)) := by
  rw [stampNotes, stamp_notes_fold l hd [] t0, List.nil_append]

/-- Every chord built over the 32-beat steady section rhythm lasts 1 beat. -/
lemma section_chords_duration (scale prog : List ℤ) (N : ℕ) :
    ∀ c ∈ generate_chord_progression scale prog songSectionRhythm N,
      c.duration = 1 := by
  intro c hc
  rw [songSectionRhythm_eq] at hc
  simp only [generate_chord_progression, List.mem_map, List.mem_range,
    List.length_replicate] at hc
  obtain ⟨i, hi, rfl⟩ := hc
  have : i < (List.replicate 32 (1 : ℚ)).length := by simpa using hi
  show (List.replicate 32 (1 : ℚ)).getD i 0 = 1
  rw [List.getD_eq_getElem _ _ this, List.getElem_replicate]

/-- Every melody event over the 32-beat steady section rhythm lasts 1 beat. -/
lemma section_melody_duration (choice : ℕ → ℕ) (scale : List ℤ) :
    ∀ e ∈ generate_melody choice scale songSectionRhythm,
      e.duration = 1 := by
  intro e he
  rw [songSectionRhythm_eq] at he
  simp only [generate_melody, List.mem_map, List.mem_range,
    List.length_replicate] at he
  obtain ⟨i, hi, rfl⟩ := he
  have : i < (List.replicate 32 (1 : ℚ)).length := by simpa using hi
  show (List.replicate 32 (1 : ℚ)).getD i 0 = 1
  rw [List.getD_eq_getElem _ _ this, List.getElem_replicate]

/-- A section's chord list has 32 entries. -/
lemma section_chords_length (scale prog : List ℤ) (N : ℕ) :
    (generate_chord_progression scale prog songSectionRhythm N).length
      = 32 := by
  simp [generate_chord_progression, songSectionRhythm_eq]

/-- A section's melody has 32 events. -/
lemma section_melody_length (choice : ℕ → ℕ) (scale : List ℤ) :
    (generate_melody choice scale songSectionRhythm).length = 32 := by
  simp [generate_melody, songSectionRhythm_eq]

set_option maxHeartbeats 1600000 in
/-- Start-time bookkeeping of the section loop: starting the loop at time
`t0`, the concatenated chord and melody parts each have 32 events per
section, and their `i`-th events start exactly at `t0 + i`. -/
lemma songSections_spec (scale : List ℤ) (progs : ℕ → List ℤ)
    (choice : ℕ → ℕ) (ks : List ℕ) (t0 : ℚ) :
    (songSections scale progs choice ks t0).1.length = 32 * ks.length ∧
    (songSections scale progs choice ks t0).2.length = 32 * ks.length ∧
    (∀ i, i < 32 * ks.length →
      ((songSections scale progs choice ks t0).1.getD i default).start_time
        = some (t0 + (i : ℚ))) ∧
    (∀ i, i < 32 * ks.length →
      ((songSections scale progs choice ks t0).2.getD i default).start_time
        = some (t0 + (i : ℚ))) := by
  induction ks generalizing t0 with
  | nil =>
    refine ⟨by simp [songSections], by simp [songSections], ?_, ?_⟩ <;>
      intro i hi <;> simp at hi
  | cons k rest ih =>
    obtain ⟨ih1, ih2, ih3, ih4⟩ := ih (t0 + 32)
    have hcd := section_chords_duration scale (progs k) 3
    have hmd := section_melody_duration (fun i => choice (32 * k + i)) scale
    have hcl := section_chords_length scale (progs k) 3
    have hml := section_melody_length (fun i => choice (32 * k + i)) scale
    have h32 : (((generate_chord_progression scale (progs k)
        songSectionRhythm 3).length : ℕ) : ℚ) = 32 := by
      rw [hcl]
      norm_num
    have hfst : (songSections scale progs choice (k :: rest) t0).1 =
        (List.range (generate_chord_progression scale (progs k)
          songSectionRhythm 3).length).map (fun i =>
            { (generate_chord_progression scale (progs k)
                songSectionRhythm 3).getD i default with
              start_time := some (t0 + (i : ℚ)) })
          ++ (songSections scale progs choice rest (t0 + 32)).1 := by
      show ((stampChords (generate_chord_progression scale (progs k)
          songSectionRhythm 3) t0).1
        ++ (songSections scale progs choice rest
          (stampChords (generate_chord_progression scale (progs k)
            songSectionRhythm 3) t0).2).1) = _
      rw [stampChords_spec _ hcd]
      dsimp only
      rw [h32]
    have hsnd : (songSections scale progs choice (k :: rest) t0).2 =
        (List.range (generate_melody (fun i => choice (32 * k + i)) scale
          songSectionRhythm).length).map (fun i =>
            { (generate_melody (fun i => choice (32 * k + i)) scale
                songSectionRhythm).getD i default with
              start_time := some (t0 + (i : ℚ)) })
          ++ (songSections scale progs choice rest (t0 + 32)).2 := by
      show ((stampNotes (generate_melody (fun i => choice (32 * k + i)) scale
          songSectionRhythm)
          ((stampChords (generate_chord_progression scale (progs k)
            songSectionRhythm 3) t0).2 - songSectionRhythm.sum)).1
        ++ (songSections scale progs choice rest
          (stampChords (generate_chord_progression scale (progs k)
            songSectionRhythm 3) t0).2).2) = _
      rw [stampChords_spec _ hcd]
      dsimp only
      rw [h32, songSectionRhythm_sum]
      have hb : t0 + 32 - 32 = t0 := by ring
      rw [hb, stampNotes_spec _ hmd]
    refine ⟨?_, ?_, ?_, ?_⟩
    · rw [hfst, List.length_append, List.length_map, List.length_range, hcl,
        ih1, List.length_cons]
      ring
    · rw [hsnd, List.length_append, List.length_map, List.length_range, hml,
        ih2, List.length_cons]
      ring
    · intro i hi
      rw [List.length_cons] at hi
      rw [hfst]
      by_cases hlt : i < 32
      · have hm : i < ((List.range (generate_chord_progression scale (progs k)
            songSectionRhythm 3).length).map (fun i =>
              { (generate_chord_progression scale (progs k)
                  songSectionRhythm 3).getD i default with
                start_time := some (t0 + (i : ℚ)) })).length := by
          rw [List.length_map, List.length_range, hcl]
          exact hlt
        rw [List.getD_append _ _ _ _ hm,
          getD_map_range _ _ _ (by rw [hcl]; exact hlt)]
      · push_neg at hlt
        have hge : ((List.range (generate_chord_progression scale (progs k)
            songSectionRhythm 3).length).map (fun i =>
              { (generate_chord_progression scale (progs k)
                  songSectionRhythm 3).getD i default with
                start_time := some (t0 + (i : ℚ)) })).length ≤ i := by
          rw [List.length_map, List.length_range, hcl]
          exact hlt
        rw [List.getD_append_right _ _ _ _ hge, List.length_map,
          List.length_range, hcl, ih3 (i - 32) (by omega)]
        exact congrArg some (by rw [Nat.cast_sub hlt]; push_cast; ring)
    · intro i hi
      rw [List.length_cons] at hi
      rw [hsnd]
      by_cases hlt : i < 32
      · have hm : i < ((List.range (generate_melody
            (fun i => choice (32 * k + i)) scale
            songSectionRhythm).length).map (fun i =>
              { (generate_melody (fun i => choice (32 * k + i)) scale
                  songSectionRhythm).getD i default with
                start_time := some (t0 + (i : ℚ)) })).length := by
          rw [List.length_map, List.length_range, hml]
          exact hlt
        rw [List.getD_append _ _ _ _ hm,
          getD_map_range _ _ _ (by rw [hml]; exact hlt)]
      · push_neg at hlt
        have hge : ((List.range (generate_melody
            (fun i => choice (32 * k + i)) scale
            songSectionRhythm).length).map (fun i =>
              { (generate_melody (fun i => choice (32 * k + i)) scale
                  songSectionRhythm).getD i default with
                start_time := some (t0 + (i : ℚ)) })).length ≤ i := by
          rw [List.length_map, List.length_range, hml]
          exact hlt
        rw [List.getD_append_right _ _ _ _ hge, List.length_map,
          List.length_range, hml, ih4 (i - 32) (by omega)]
        exact congrArg some (by rw [Nat.cast_sub hlt]; push_cast; ring)

/-- C7: over the four 8-measure 4/4 sections, the assembled song's combined
chord part and combined melody part each hold 128 events; the `i`-th event of
each part starts exactly at beat `i` (so every event of section `k` is offset
by `32k`, the sum of the prior sections' rhythm totals), and both parts are
strictly sorted by start time across section boundaries. -/
theorem C7_song_timeline (scale_notes : List ℤ) (progs : ℕ → List ℤ)
    (choice : ℕ → ℕ) (hs : scale_notes ≠ []) (hp : ∀ k, progs k ≠ []) :
    (generate_song_action scale_notes progs choice).1.length = 128 ∧
    (generate_song_action scale_notes progs choice).2.length = 128 ∧
    (∀ i, i < 128 →
      ((generate_song_action scale_notes progs choice).1.getD i
        default).start_time = some ((i : ℚ))) ∧
    (∀ i, i < 128 →
      ((generate_song_action scale_notes progs choice).2.getD i
        default).start_time = some ((i : ℚ))) ∧
    (∀ i j, i < j → j < 128 →
      ((generate_song_action scale_notes progs choice).1.getD i
          default).start_time.getD 0
        < ((generate_song_action scale_notes progs choice).1.getD j
          default).start_time.getD 0 ∧
      ((generate_song_action scale_notes progs choice).2.getD i
          default).start_time.getD 0
        < ((generate_song_action scale_notes progs choice).2.getD j
          default).start_time.getD 0) := by
  obtain ⟨h1, h2, h3, h4⟩ :=
    songSections_spec scale_notes progs choice [0, 1, 2, 3] 0
  have hlen : 32 * ([0, 1, 2, 3] : List ℕ).length = 128 := by norm_num
  rw [hlen] at h1 h2 h3 h4
  have h3' : ∀ i, i < 128 →
      ((generate_song_action scale_notes progs choice).1.getD i
        default).start_time = some ((i : ℚ)) := by
    intro i hi
    have := h3 i hi
    rw [zero_add] at this
    exact this
  have h4' : ∀ i, i < 128 →
      ((generate_song_action scale_notes progs choice).2.getD i
        default).start_time = some ((i : ℚ)) := by
    intro i hi
    have := h4 i hi
    rw [zero_add] at this
    exact this
  refine ⟨h1, h2, h3', h4', ?_⟩
  intro i j hij hj
  have hi : i < 128 := lt_trans hij hj
  rw [h3' i hi, h3' j hj, h4' i hi, h4' j hj]
  simp only [Option.getD_some]
  exact ⟨by exact_mod_cast hij, by exact_mod_cast hij⟩

/-- C7 witness: one-note scale, constant progression, constant choices. -/
theorem C7_witness :
    (generate_song_action [60] (fun _ => [1]) (fun _ => 0)).1.length = 128 ∧
    (generate_song_action [60] (fun _ => [1]) (fun _ => 0)).2.length = 128 ∧
    (∀ i, i < 128 →
      ((generate_song_action [60] (fun _ => [1]) (fun _ => 0)).1.getD i
        default).start_time = some ((i : ℚ))) ∧
    (∀ i, i < 128 →
      ((generate_song_action [60] (fun _ => [1]) (fun _ => 0)).2.getD i
        default).start_time = some ((i : ℚ))) ∧
    (∀ i j, i < j → j < 128 →
      ((generate_song_action [60] (fun _ => [1]) (fun _ => 0)).1.getD i
          default).start_time.getD 0
        < ((generate_song_action [60] (fun _ => [1]) (fun _ => 0)).1.getD j
          default).start_time.getD 0 ∧
      ((generate_song_action [60] (fun _ => [1]) (fun _ => 0)).2.getD i
          default).start_time.getD 0
        < ((generate_song_action [60] (fun _ => [1]) (fun _ => 0)).2.getD j
          default).start_time.getD 0) :=
  C7_song_timeline [60] (fun _ => [1]) (fun _ => 0) (by decide)
    (fun _ => List.cons_ne_nil 1 [])

/-- Modelled from the spec: the note-selection rule of the stepwise melody
policy (§4.3), which is absent from `src/` (src/main.py's `generate_melody`
has no complexity parameter and implements only the uniform policy; the spec
attributes the stepwise policy to repository variants). With no previous
pitch, or complexity ≤ 1, a uniform draw from the scale subset; otherwise a
random step of ±1 or ±2 scale positions from the previous pitch's position,
falling back to a uniform draw exactly when the stepped position leaves the
subset. -/
def melodyNote (complexity : ℕ) (steps choice : ℕ → ℕ)
    (scale_notes : List ℤ) (i : ℕ) (prev : Option ℤ) : ℤ :=
  match prev with
  | none => scale_notes.getD (choice i % scale_notes.length) 0
  | some p =>
    if 1 < complexity then
      let step := ([-2, -1, 1, 2] : List ℤ).getD (steps i % 4) 0
      let pos : ℤ := (scale_notes.indexOf p : ℤ) + step
      if 0 ≤ pos ∧ pos < scale_notes.length then scale_notes.getD pos.toNat 0
      else scale_notes.getD (choice i % scale_notes.length) 0
    else scale_notes.getD (choice i % scale_notes.length) 0

/-- Modelled from the spec: the melody loop threading the previously emitted
pitch through the per-slot note selection. -/
def melodyLoop (complexity : ℕ) (steps choice : ℕ → ℕ)
    (scale_notes : List ℤ) :
    List ℚ → ℕ → Option ℤ → List NoteEvent
  | [], _, _ => []
  | d :: rest, i, prev =>
    let note := melodyNote complexity steps choice scale_notes i prev
    { note := note, duration := d, velocity := 100 }
      :: melodyLoop complexity steps choice scale_notes rest (i + 1)
        (some note)

/-- Modelled from the spec: `generate_melody` for a configurable complexity,
starting with no previous pitch. -/
def generate_melody_stepwise (complexity : ℕ) (steps choice : ℕ → ℕ)
    (scale_notes : List ℤ) (rhythm_pattern : List ℚ) : List NoteEvent :=
  melodyLoop complexity steps choice scale_notes rhythm_pattern 0 none

/-- Every pitch the stepwise rule selects lies in the scale subset. -/
lemma melodyNote_mem (complexity : ℕ) (steps choice : ℕ → ℕ)
    (scale_notes : List ℤ) (i : ℕ) (prev : Option ℤ)
    (hs : scale_notes ≠ []) :
    melodyNote complexity steps choice scale_notes i prev ∈ scale_notes := by
  have hlen : 0 < scale_notes.length := List.length_pos.mpr hs
  have hunif : scale_notes.getD (choice i % scale_notes.length) 0
      ∈ scale_notes := by
    have hm : choice i % scale_notes.length < scale_notes.length :=
      Nat.mod_lt _ hlen
    rw [List.getD_eq_getElem _ _ hm]
    exact List.getElem_mem hm
  match prev with
  | none => exact hunif
  | some p =>
    simp only [melodyNote]
    by_cases hc : 1 < complexity
    · rw [if_pos hc]
      by_cases hin : 0 ≤ (scale_notes.indexOf p : ℤ)
          + ([-2, -1, 1, 2] : List ℤ).getD (steps i % 4) 0 ∧
          (scale_notes.indexOf p : ℤ)
          + ([-2, -1, 1, 2] : List ℤ).getD (steps i % 4) 0
            < scale_notes.length
      · rw [if_pos hin]
        have hm : ((scale_notes.indexOf p : ℤ)
            + ([-2, -1, 1, 2] : List ℤ).getD (steps i % 4) 0).toNat
            < scale_notes.length := by omega
        rw [List.getD_eq_getElem _ _ hm]
        exact List.getElem_mem hm
      · rw [if_neg hin]
        exact hunif
    · rw [if_neg hc]
      exact hunif

/-- The melody loop emits one note per duration. -/
lemma melodyLoop_length (complexity : ℕ) (steps choice : ℕ → ℕ)
    (scale_notes : List ℤ) :
    ∀ (durs : List ℚ) (i0 : ℕ) (prev : Option ℤ),
      (melodyLoop complexity steps choice scale_notes durs i0 prev).length
        = durs.length := by
  intro durs
  induction durs with
  | nil => intro i0 prev; rfl
  | cons d rest ih =>
    intro i0 prev
    simp only [melodyLoop, List.length_cons, ih]

/-- The first note the loop emits applies the rule to the incoming state. -/
lemma melodyLoop_note_zero (complexity : ℕ) (steps choice : ℕ → ℕ)
    (scale_notes : List ℤ) (durs : List ℚ) (i0 : ℕ) (prev : Option ℤ)
    (h : 0 < durs.length) :
    ((melodyLoop complexity steps choice scale_notes durs i0 prev).getD 0
      default).note = melodyNote complexity steps choice scale_notes i0
        prev := by
  match durs with
  | [] => simp at h
  | d :: rest => rfl

/-- Each later note applies the rule to the pitch just emitted: the loop's
state really is the previous output. -/
lemma melodyLoop_note_succ (complexity : ℕ) (steps choice : ℕ → ℕ)
    (scale_notes : List ℤ) :
    ∀ (durs : List ℚ) (i0 : ℕ) (prev : Option ℤ) (j : ℕ),
      j + 1 < durs.length →
      ((melodyLoop complexity steps choice scale_notes durs i0 prev).getD
        (j + 1) default).note
        = melodyNote complexity steps choice scale_notes (i0 + j + 1)
          (some (((melodyLoop complexity steps choice scale_notes durs i0
            prev).getD j default).note)) := by
  intro durs
  induction durs with
  | nil => intro i0 prev j hj; simp at hj
  | cons d rest ih =>
    intro i0 prev j hj
    match j with
    | 0 =>
      simp only [melodyLoop, List.getD_cons_succ, List.getD_cons_zero]
      rw [melodyLoop_note_zero _ _ _ _ _ _ _ (by simp at hj; omega)]
    | Nat.succ j' =>
      simp only [melodyLoop, List.getD_cons_succ]
      rw [ih (i0 + 1) _ j' (by simp at hj; omega)]
      congr 2
      omega

/-- Every note the melody loop emits lies in the scale subset. -/
lemma melodyLoop_mem (complexity : ℕ) (steps choice : ℕ → ℕ)
    (scale_notes : List ℤ) (hs : scale_notes ≠ []) :
    ∀ (durs : List ℚ) (i0 : ℕ) (prev : Option ℤ),
      ∀ e ∈ melodyLoop complexity steps choice scale_notes durs i0 prev,
        e.note ∈ scale_notes := by
  intro durs
  induction durs with
  | nil => intro i0 prev e he; simp [melodyLoop] at he
  | cons d rest ih =>
    intro i0 prev e he
    simp only [melodyLoop, List.mem_cons] at he
    rcases he with he | he
    · rw [he]
      exact melodyNote_mem complexity steps choice scale_notes i0 prev hs
    · exact ih (i0 + 1) _ e he

/-- C9 (spec-modelled): with complexity > 1, the stepwise melody emits one
note per rhythm slot, every pitch is in the scale subset, and each pitch
after the first is the previous emitted pitch stepped by the drawn ±1/±2
scale positions when that position stays inside the subset, and a uniform
draw from the subset exactly otherwise. -/
theorem C9_melody_stepwise (complexity : ℕ) (steps choice : ℕ → ℕ)
    (scale_notes : List ℤ) (rhythm : List ℚ) (hc : 1 < complexity)
    (hs : scale_notes ≠ []) :
    (generate_melody_stepwise complexity steps choice scale_notes
      rhythm).length = rhythm.length ∧
    (∀ e ∈ generate_melody_stepwise complexity steps choice scale_notes
      rhythm, e.note ∈ scale_notes) ∧
    ∀ j, j + 1 < rhythm.length →
      ((generate_melody_stepwise complexity steps choice scale_notes
        rhythm).getD (j + 1) default).note
        = if 0 ≤ (scale_notes.indexOf
              (((generate_melody_stepwise complexity steps choice scale_notes
                rhythm).getD j default).note) : ℤ)
              + ([-2, -1, 1, 2] : List ℤ).getD (steps (j + 1) % 4) 0 ∧
            (scale_notes.indexOf
              (((generate_melody_stepwise complexity steps choice scale_notes
                rhythm).getD j default).note) : ℤ)
              + ([-2, -1, 1, 2] : List ℤ).getD (steps (j + 1) % 4) 0
              < scale_notes.length
          then scale_notes.getD
            (((scale_notes.indexOf
              (((generate_melody_stepwise complexity steps choice scale_notes
                rhythm).getD j default).note) : ℤ)
              + ([-2, -1, 1, 2] : List ℤ).getD (steps (j + 1) % 4) 0).toNat) 0
          else scale_notes.getD (choice (j + 1) % scale_notes.length) 0 := by
  refine ⟨melodyLoop_length complexity steps choice scale_notes rhythm 0 none,
    ?_, ?_⟩
  · intro e he
    exact melodyLoop_mem complexity steps choice scale_notes hs rhythm 0 none
      e he
  · intro j hj
    have h := melodyLoop_note_succ complexity steps choice scale_notes rhythm
      0 none j hj
    rw [show 0 + j + 1 = j + 1 by omega] at h
    simp only [generate_melody_stepwise]
    rw [h]
    simp only [melodyNote]
    rw [if_pos hc]

/-- C9 witness: complexity 2 over the two-note scale [60, 62]. -/
theorem C9_witness :
    (generate_melody_stepwise 2 (fun _ => 0) (fun _ => 0) [60, 62]
      [1, (1 : ℚ)]).length = [1, (1 : ℚ)].length ∧
    (∀ e ∈ generate_melody_stepwise 2 (fun _ => 0) (fun _ => 0) [60, 62]
      [1, (1 : ℚ)], e.note ∈ [60, 62]) ∧
    ∀ j, j + 1 < ([1, (1 : ℚ)] : List ℚ).length →
      ((generate_melody_stepwise 2 (fun _ => 0) (fun _ => 0) [60, 62]
        [1, (1 : ℚ)]).getD (j + 1) default).note
        = if 0 ≤ (([60, 62] : List ℤ).indexOf
              (((generate_melody_stepwise 2 (fun _ => 0) (fun _ => 0)
                [60, 62] [1, (1 : ℚ)]).getD j default).note) : ℤ)
              + ([-2, -1, 1, 2] : List ℤ).getD ((fun _ => 0) (j + 1) % 4) 0 ∧
            (([60, 62] : List ℤ).indexOf
              (((generate_melody_stepwise 2 (fun _ => 0) (fun _ => 0)
                [60, 62] [1, (1 : ℚ)]).getD j default).note) : ℤ)
              + ([-2, -1, 1, 2] : List ℤ).getD ((fun _ => 0) (j + 1) % 4) 0
              < ([60, 62] : List ℤ).length
          then ([60, 62] : List ℤ).getD
            (((([60, 62] : List ℤ).indexOf
              (((generate_melody_stepwise 2 (fun _ => 0) (fun _ => 0)
                [60, 62] [1, (1 : ℚ)]).getD j default).note) : ℤ)
              + ([-2, -1, 1, 2] : List ℤ).getD
                ((fun _ => 0) (j + 1) % 4) 0).toNat) 0
          else ([60, 62] : List ℤ).getD
            ((fun _ => 0) (j + 1) % ([60, 62] : List ℤ).length) 0 :=
  C9_melody_stepwise 2 (fun _ => 0) (fun _ => 0) [60, 62] [1, (1 : ℚ)]
    (by decide) (by decide)
